import Mathlib

/-!
Shallow embedding of the visual-regression-engine core in Lean 4.

The JavaScript sources embedded here:
* `src/core/ClusterAnalyzer.js` — BFS connected-component labeling of the
  diff mask, line-shift classification, significance aggregation.
* `src/core/ImageProcessor.js` — scale computation and canonical canvas
  dimension bookkeeping (pixel resampling itself is done by the external
  canvas library and is out of scope, as in the design document).
* `src/core/ImageComparator.js` — the comparison pipeline downstream of the
  external pixel-diff provider (pixelmatch), input validation, verdict.
* `src/index.js` — engine facade: option cascade, error wrapping, batch.
* `src/utils/errors.js` — the error taxonomy.

Pixel buffers are lists of byte values (`List Nat`); reading past the end
of a `Uint8ClampedArray` yields `undefined` in JS, which compares unequal
to every number, so `List.getD _ _ 0` (0 is never 255) models the
out-of-range read faithfully for the equality tests the code performs.
Rational numbers stand in for JS floating point; every division the
embedded code performs is between small integers, where the two agree.
The BFS loop is given explicit fuel `9 * buffer.length + 1`, an upper
bound on its loop measure proved below; with that fuel the fuel-out
branch is unreachable.
-/

/-- Pixel coordinate: first component is x, second is y. -/
abbrev Coord := Nat × Nat

/-- Byte offset of the 4-byte RGBA slot of a coordinate: `(y * width + x) * 4`. -/
def posOf (width : Nat) (c : Coord) : Nat := (c.2 * width + c.1) * 4

/-- ClusterAnalyzer._isDiffPixel: a pixel differs when its bytes read
`255, 0, 0` at offsets `pos`, `pos+1`, `pos+2`. -/
def isDiffPixel (buffer : List Nat) (pos : Nat) : Bool :=
  buffer.getD pos 0 == 255 && buffer.getD (pos + 1) 0 == 0 && buffer.getD (pos + 2) 0 == 0

/-- Offsets `(dx, dy)` of the 8-connected neighborhood, in the scan order of
the nested `dy`/`dx` loops of the source (dy outer, dx inner, skipping 0,0). -/
def neighborOffsets : List (Int × Int) :=
  [(-1, -1), (0, -1), (1, -1), (-1, 0), (1, 0), (-1, 1), (0, 1), (1, 1)]

/-- In-bounds 8-connected neighbors of a coordinate, in loop order; the
source computes `nx = x + dx`, `ny = y + dy` over signed integers and keeps
those with `0 ≤ nx < width` and `0 ≤ ny < height`. -/
def neighborList (c : Coord) (width height : Nat) : List Coord :=
  neighborOffsets.filterMap fun d =>
    let nx : Int := (c.1 : Int) + d.1
    let ny : Int := (c.2 : Int) + d.2
    if 0 ≤ nx ∧ nx < (width : Int) ∧ 0 ≤ ny ∧ ny < (height : Int) then
      some (nx.toNat, ny.toNat)
    else
      none

/-- ClusterAnalyzer._detectLineShift: a pixel of the cluster is line-like
when at most 2 of its in-bounds 8-neighbors are diff pixels of the mask;
the cluster is a line shift when the fraction of line-like pixels exceeds
the threshold the analyzer was constructed with. An empty pixel list
returns false. -/
def detectLineShift (clusterPixels : List Coord) (buffer : List Nat)
    (width height : Nat) (lineShiftThreshold : ℚ) : Bool :=
  if clusterPixels.length = 0 then false
  else
    let linelikePixels := clusterPixels.countP fun c =>
      decide (((neighborList c width height).countP fun n =>
        isDiffPixel buffer (posOf width n)) ≤ 2)
    decide (lineShiftThreshold < Rat.divInt linelikePixels clusterPixels.length)

/-- Bounding box of a cluster; the source returns an object without width
and height fields for an empty pixel list, modeled by `none`. -/
structure Bounds where
  minX : Nat
  minY : Nat
  maxX : Nat
  maxY : Nat
  width : Option Nat
  height : Option Nat
deriving Repr, DecidableEq

/-- ClusterAnalyzer._calculateBounds. -/
def calculateBounds (pixels : List Coord) : Bounds :=
  match pixels with
  | [] => ⟨0, 0, 0, 0, none, none⟩
  | p :: _ =>
    let minX := pixels.foldl (fun m q => Nat.min m q.1) p.1
    let maxX := pixels.foldl (fun m q => Nat.max m q.1) p.1
    let minY := pixels.foldl (fun m q => Nat.min m q.2) p.2
    let maxY := pixels.foldl (fun m q => Nat.max m q.2) p.2
    ⟨minX, minY, maxX, maxY, some (maxX - minX + 1), some (maxY - minY + 1)⟩

/-- Cluster record returned by ClusterAnalyzer._findCluster. -/
structure Cluster where
  size : Nat
  pixels : List Coord
  isLineShift : Bool
  bounds : Bounds
deriving Repr, DecidableEq

/-- Loop body of the BFS in ClusterAnalyzer._findCluster. The queue is
FIFO (`shift` from the front, push to the back); a dequeued position is
skipped when already visited or not a diff pixel, otherwise it is marked
visited, appended to the cluster, and its in-bounds neighbors not yet
visited are enqueued. The fuel argument only forces termination; callers
supply fuel exceeding the loop measure, so the fuel-out branch is dead. -/
def findClusterAux (buffer : List Nat) (width height : Nat) :
    Nat → List Coord → Finset Nat → List Coord → Nat → List Coord × Nat × Finset Nat
  | _, [], visited, clusterPixels, size => (clusterPixels, size, visited)
  | 0, _ :: _, visited, clusterPixels, size => (clusterPixels, size, visited)
  | fuel + 1, c :: rest, visited, clusterPixels, size =>
    if posOf width c ∈ visited ∨ isDiffPixel buffer (posOf width c) = false then
      findClusterAux buffer width height fuel rest visited clusterPixels size
    else
      let visited2 := insert (posOf width c) visited
      let nbrs := (neighborList c width height).filter fun n =>
        decide (posOf width n ∉ visited2)
      findClusterAux buffer width height fuel (rest ++ nbrs) visited2
        (clusterPixels ++ [c]) (size + 1)

/-- ClusterAnalyzer._findCluster: BFS from a seed, then line-shift
classification and bounding box. Returns the cluster and the grown
visited set (the source mutates the shared visited set in place). -/
def findCluster (buffer : List Nat) (startX startY : Nat) (width height : Nat)
    (visited : Finset Nat) (lineShiftThreshold : ℚ) : Cluster × Finset Nat :=
  let r := findClusterAux buffer width height (9 * buffer.length + 1)
    [(startX, startY)] visited [] 0
  let clusterPixels := r.1
  let size := r.2.1
  let isLineShift := detectLineShift clusterPixels buffer width height lineShiftThreshold
  (⟨size, clusterPixels, isLineShift, calculateBounds clusterPixels⟩, r.2.2)

/-- Row-major scan order of the grid, y outer, x inner, as in the nested
loops of ClusterAnalyzer.analyzeClusters. -/
def scanOrder (width height : Nat) : List Coord :=
  (List.range height).flatMap fun y => (List.range width).map fun x => (x, y)

/-- Outer scan loop of ClusterAnalyzer.analyzeClusters: seed a BFS at every
unvisited diff pixel, in scan order, threading the visited set. -/
def analyzeLoop (buffer : List Nat) (width height : Nat) (lineShiftThreshold : ℚ) :
    List Coord → Finset Nat → List Cluster → List Cluster × Finset Nat
  | [], visited, clusters => (clusters, visited)
  | c :: restScan, visited, clusters =>
    if isDiffPixel buffer (posOf width c) = true ∧ posOf width c ∉ visited then
      let r := findCluster buffer c.1 c.2 width height visited lineShiftThreshold
      analyzeLoop buffer width height lineShiftThreshold restScan r.2 (clusters ++ [r.1])
    else
      analyzeLoop buffer width height lineShiftThreshold restScan visited clusters

/-- Aggregate record returned by ClusterAnalyzer.analyzeClusters. -/
structure ClusterAnalysis where
  clusters : List Cluster
  significantClusters : Nat
  significantPixels : Nat
  totalClusters : Nat
deriving Repr, DecidableEq

/-- Significance filter of ClusterAnalyzer.analyzeClusters: a cluster is
significant when it is not a line shift and meets the minimum size. -/
def isSignificantCluster (minClusterSize : Nat) (cl : Cluster) : Bool :=
  !cl.isLineShift && decide (minClusterSize ≤ cl.size)

/-- ClusterAnalyzer.analyzeClusters. The analyzer object was constructed
with the engine instance options, and _detectLineShift reads
`this.options.lineShiftThreshold` from those, while `minClusterSize` is
read from the per-call options argument; the two option records are
therefore passed separately. -/
def analyzeClusters (instLineShiftThreshold : ℚ) (diffBuffer : List Nat)
    (width height : Nat) (minClusterSize : Nat) : ClusterAnalysis :=
  let r := analyzeLoop diffBuffer width height instLineShiftThreshold
    (scanOrder width height) ∅ []
  let clusters := r.1
  let significant := clusters.filter (isSignificantCluster minClusterSize)
  let significantPixels := significant.foldl (fun sum cl => sum + cl.size) 0
  ⟨clusters, significant.length, significantPixels, clusters.length⟩

/-- Fully resolved configuration record, fields as in the engine defaults
of `VisualComparisonEngine.constructor`. -/
structure Options where
  threshold : ℚ
  includeAA : Bool
  alpha : ℚ
  maxSide : Nat
  backgroundColor : List Nat
  minClusterSize : Nat
  maxTotalDiffPixels : Nat
  maxSignificantClusters : Nat
  lineShiftThreshold : ℚ
deriving Repr, DecidableEq

/-- Caller-supplied option record; a `none` field models a key the caller
did not put on the options object, so an object spread leaves it alone. -/
structure OptionOverrides where
  threshold : Option ℚ := none
  includeAA : Option Bool := none
  alpha : Option ℚ := none
  maxSide : Option Nat := none
  backgroundColor : Option (List Nat) := none
  minClusterSize : Option Nat := none
  maxTotalDiffPixels : Option Nat := none
  maxSignificantClusters : Option Nat := none
  lineShiftThreshold : Option ℚ := none
deriving Repr, DecidableEq

/-- Object spread `{ ...base, ...o }` of a full record with an override
record: a key present in `o` wins, key by key. -/
def applyOverrides (base : Options) (o : OptionOverrides) : Options where
  threshold := o.threshold.getD base.threshold
  includeAA := o.includeAA.getD base.includeAA
  alpha := o.alpha.getD base.alpha
  maxSide := o.maxSide.getD base.maxSide
  backgroundColor := o.backgroundColor.getD base.backgroundColor
  minClusterSize := o.minClusterSize.getD base.minClusterSize
  maxTotalDiffPixels := o.maxTotalDiffPixels.getD base.maxTotalDiffPixels
  maxSignificantClusters := o.maxSignificantClusters.getD base.maxSignificantClusters
  lineShiftThreshold := o.lineShiftThreshold.getD base.lineShiftThreshold

/-- View of a full record as an override record with every key present, as
when a fully merged options object is spread again downstream. -/
def Options.toOverrides (o : Options) : OptionOverrides where
  threshold := some o.threshold
  includeAA := some o.includeAA
  alpha := some o.alpha
  maxSide := some o.maxSide
  backgroundColor := some o.backgroundColor
  minClusterSize := some o.minClusterSize
  maxTotalDiffPixels := some o.maxTotalDiffPixels
  maxSignificantClusters := some o.maxSignificantClusters
  lineShiftThreshold := some o.lineShiftThreshold

/-- Built-in global defaults of `VisualComparisonEngine.constructor`. The
constructor lists each default and then spreads the caller object on top,
so the net effect is defaults overridden key by key. -/
def defaultOptions : Options where
  threshold := mkRat 1 2
  includeAA := false
  alpha := mkRat 1 10
  maxSide := 400
  backgroundColor := [240, 240, 240, 255]
  minClusterSize := 4
  maxTotalDiffPixels := 40
  maxSignificantClusters := 2
  lineShiftThreshold := mkRat 4 5

/-- Error taxonomy of `src/utils/errors.js`; the `error` constructor is a
plain JS `Error` such as the unsupported-input failure of the processor. -/
inductive JsError where
  | validationError (message : String)
  | comparisonError (message : String) (cause : JsError)
  | error (message : String)
deriving Repr, DecidableEq

/-- Message carried by an error object. -/
def JsError.message : JsError → String
  | .validationError m => m
  | .comparisonError m _ => m
  | .error m => m

/-- Output of the external diff provider (pixelmatch) on the two canonical
buffers: the populated diff buffer, the returned count of differing
pixels, and the shared canvas dimensions produced by the processor. -/
structure DiffOutcome where
  diffBuffer : List Nat
  diffCount : Nat
  width : Nat
  height : Nat
deriving Repr, DecidableEq

/-- Detail block of a ComparisonResult. The zero-diff early return of
`ImageComparator.compare` builds its details without an analysis field,
modeled by `none`: an analysis is present exactly when the Cluster
Analyzer ran. -/
structure Details where
  totalDiffPixels : Nat
  significantDiffPixels : Nat
  clusters : List Cluster
  analysis : Option ClusterAnalysis
deriving Repr, DecidableEq

/-- ComparisonResult of `ImageComparator.compare`; `diffImageData` holds
the bytes of the diff visualization buffer. -/
structure ComparisonResult where
  ok : Bool
  diffCount : Nat
  diffImageData : List Nat
  details : Details
deriving Repr, DecidableEq

/-- ImageComparator._evaluateSignificance. -/
def evaluateSignificance (analysis : ClusterAnalysis) (options : Options) : Bool :=
  decide (analysis.significantPixels = 0) ||
    (decide (analysis.significantPixels ≤ options.maxTotalDiffPixels) &&
      decide (analysis.significantClusters ≤ options.maxSignificantClusters))

/-- Tail of `ImageComparator.compare` from the point where the external
diff provider has returned: the zero-diff early return, else cluster
analysis and the significance verdict. `instOptions` is the record the
comparator (and so its ClusterAnalyzer) was constructed with;
`mergedOptions` is the per-call merged record. -/
def compareFromDiff (instOptions : Options) (diffBuffer : List Nat)
    (diffCount : Nat) (width height : Nat) (mergedOptions : Options) :
    ComparisonResult :=
  if diffCount = 0 then
    ⟨true, 0, diffBuffer, ⟨0, 0, [], none⟩⟩
  else
    let clusterAnalysis := analyzeClusters instOptions.lineShiftThreshold
      diffBuffer width height mergedOptions.minClusterSize
    let ok := evaluateSignificance clusterAnalysis mergedOptions
    ⟨ok, diffCount, diffBuffer,
      ⟨diffCount, clusterAnalysis.significantPixels, clusterAnalysis.clusters,
        some clusterAnalysis⟩⟩

/-- ImageComparator.compare over an image type `α`. The canonicalization
and pixel diff are performed by external collaborators (node-canvas and
pixelmatch), modeled by the deterministic function `ext` mapping the two
images and the merged options to either a thrown error message or the
provider outcome. A missing image fails validation first; the source
checks `!actual || !expected` after computing the merged options and
before any processing. -/
def comparatorCompare {α : Type} (ext : α → α → Options → Except String DiffOutcome)
    (instOptions : Options) (actual expected : Option α)
    (options : OptionOverrides) : Except JsError ComparisonResult :=
  let mergedOptions := applyOverrides instOptions options
  match actual, expected with
  | some a, some e =>
    match ext a e mergedOptions with
    | .error msg => .error (.error msg)
    | .ok d =>
      .ok (compareFromDiff instOptions d.diffBuffer d.diffCount d.width d.height
        mergedOptions)
  | _, _ => .error (.validationError "Both actual and expected images are required")

/-- VisualComparisonEngine.compare: constructor-time merge of defaults and
instance options, per-call merge on top, then the comparator call with
every failure re-wrapped as a ComparisonError carrying the cause. -/
def engineCompare {α : Type} (ext : α → α → Options → Except String DiffOutcome)
    (instOptions : OptionOverrides) (actual expected : Option α)
    (options : OptionOverrides) : Except JsError ComparisonResult :=
  let engineOptions := applyOverrides defaultOptions instOptions
  let mergedOptions := applyOverrides engineOptions options
  match comparatorCompare ext engineOptions actual expected mergedOptions.toOverrides with
  | .ok r => .ok r
  | .error e => .error (.comparisonError ("Comparison failed: " ++ e.message) e)

/-- Named image pair of a batch call. -/
structure NamedPair (α : Type) where
  name : String
  actual : Option α
  expected : Option α

/-- Entry of a batch result: `{name, ...result}` on success, so the result
fields are present; `{name, ok: false, error}` on failure, so they are
absent. -/
structure BatchEntry where
  name : String
  ok : Bool
  diffCount : Option Nat
  diffImageData : Option (List Nat)
  details : Option Details
  error : Option String
deriving Repr, DecidableEq

/-- VisualComparisonEngine.batchCompare: one shared merged option record,
then each pair is compared by the comparator directly inside a try/catch
that degrades a thrown error to `{name, ok: false, error}`. -/
def batchCompare {α : Type} (ext : α → α → Options → Except String DiffOutcome)
    (instOptions : OptionOverrides) (imagePairs : List (NamedPair α))
    (options : OptionOverrides) : List BatchEntry :=
  let engineOptions := applyOverrides defaultOptions instOptions
  let mergedOptions := applyOverrides engineOptions options
  imagePairs.map fun pair =>
    match comparatorCompare ext engineOptions pair.actual pair.expected
      mergedOptions.toOverrides with
    | .ok result =>
      ⟨pair.name, result.ok, some result.diffCount, some result.diffImageData,
        some result.details, none⟩
    | .error e => ⟨pair.name, false, none, none, none, some e.message⟩

/-- ImageProcessor._calculateScale: uniform fit of the expected canvas
into `maxSide`, doubled when the aspect ratio differs from 1. -/
def calculateScale (width height : Nat) (maxSide : ℚ) : ℚ :=
  let scale := min (maxSide / (width : ℚ)) (maxSide / (height : ℚ))
  let ratio := (width : ℚ) / (height : ℚ)
  let narrow := ratio ≠ 1
  if narrow then scale * 2 else scale

/-- Dimensions produced by ImageProcessor._resizeImage: both sides scaled
and rounded up. -/
def resizeDims (width height : Nat) (scale : ℚ) : Nat × Nat :=
  (⌈(width : ℚ) * scale⌉.toNat, ⌈(height : ℚ) * scale⌉.toNat)

/-- Dimension bookkeeping of ImageProcessor.processImages: one scale from
the expected canvas, both images resized by it, then both composited onto
canvases sized to the resized expected image; the first component is the
size of the processed actual buffer, the second of the processed expected
buffer. Pixel contents are produced by the external canvas library. -/
def processImagesDims (actualW actualH expectedW expectedH : Nat)
    (maxSide : ℚ) : (Nat × Nat) × (Nat × Nat) :=
  let scale := calculateScale expectedW expectedH maxSide
  let resizedActual := resizeDims actualW actualH scale
  let resizedExpected := resizeDims expectedW expectedH scale
  let width := resizedExpected.1
  let height := resizedExpected.2
  let _ := resizedActual
  ((width, height), (width, height))

/-! ### Basic facts about the embedded primitives -/

/-- Positions testing as diff pixels lie inside the buffer, because a read
past the end yields the default 0, never 255. -/
lemma isDiffPixel_lt_length {buffer : List Nat} {pos : Nat}
    (h : isDiffPixel buffer pos = true) : pos < buffer.length := by
  by_contra hge
  push_neg at hge
  have hd : buffer[pos]? = none := List.getElem?_eq_none hge
  simp [isDiffPixel, List.getD_eq_getElem?_getD, hd] at h

lemma neighborList_length_le (c : Coord) (width height : Nat) :
    (neighborList c width height).length ≤ 8 :=
  le_trans (List.length_filterMap_le _ _) (by simp [neighborOffsets])

lemma mem_neighborList_inBounds {c n : Coord} {width height : Nat}
    (h : n ∈ neighborList c width height) : n.1 < width ∧ n.2 < height := by
  simp only [neighborList, List.mem_filterMap] at h
  obtain ⟨d, -, hd⟩ := h
  split_ifs at hd with hb
  · cases hd
    exact ⟨by omega, by omega⟩

lemma posOf_inj {width : Nat} {p q : Coord}
    (hp : p.1 < width) (hq : q.1 < width) (h : posOf width p = posOf width q) :
    p = q := by
  unfold posOf at h
  have h4 : p.2 * width + p.1 = q.2 * width + q.1 := by omega
  have hw : 0 < width := by omega
  have hx : p.1 = q.1 := by
    have h1 : (p.2 * width + p.1) % width = p.1 % width := by
      rw [Nat.mul_comm, Nat.mul_add_mod]
    have h2 : (q.2 * width + q.1) % width = q.1 % width := by
      rw [Nat.mul_comm, Nat.mul_add_mod]
    rw [h4, h2] at h1
    rw [Nat.mod_eq_of_lt hq, Nat.mod_eq_of_lt hp] at h1
    exact h1.symm
  have hy : p.2 = q.2 := by
    have := h4
    nlinarith [hp, hq, Nat.le_of_eq h4]
  exact Prod.ext hx hy

/-! ### BFS loop invariants -/

lemma findClusterAux_nil (buffer : List Nat) (width height fuel : Nat)
    (visited : Finset Nat) (pixels : List Coord) (size : Nat) :
    findClusterAux buffer width height fuel [] visited pixels size
      = (pixels, size, visited) := by
  cases fuel <;> rfl

lemma findClusterAux_cons_skip {buffer : List Nat} {width height : Nat}
    {c : Coord} {visited : Finset Nat}
    (hskip : posOf width c ∈ visited ∨ isDiffPixel buffer (posOf width c) = false)
    (fuel : Nat) (rest : List Coord) (pixels : List Coord) (size : Nat) :
    findClusterAux buffer width height (fuel + 1) (c :: rest) visited pixels size
      = findClusterAux buffer width height fuel rest visited pixels size := by
  simp only [findClusterAux, if_pos hskip]

lemma findClusterAux_cons_process {buffer : List Nat} {width height : Nat}
    {c : Coord} {visited : Finset Nat}
    (hnv : posOf width c ∉ visited) (hdiff : isDiffPixel buffer (posOf width c) = true)
    (fuel : Nat) (rest : List Coord) (pixels : List Coord) (size : Nat) :
    findClusterAux buffer width height (fuel + 1) (c :: rest) visited pixels size
      = findClusterAux buffer width height fuel
          (rest ++ (neighborList c width height).filter fun n =>
            decide (posOf width n ∉ insert (posOf width c) visited))
          (insert (posOf width c) visited) (pixels ++ [c]) (size + 1) := by
  have hcond : ¬(posOf width c ∈ visited ∨ isDiffPixel buffer (posOf width c) = false) := by
    simp [hnv, hdiff]
  simp only [findClusterAux, if_neg hcond]

/-- Combined invariant of the BFS loop, by induction on the fuel. The
`added` list is the run of pixels the loop appends: they are diff pixels,
fresh relative to the incoming visited set, pairwise distinct, drawn from
the queue or in bounds, the size counter counts them, the visited set
grows by exactly their positions, and every diff-pixel queue entry not yet
visited ends up visited. -/
lemma findClusterAux_spec (buffer : List Nat) (width height : Nat) :
    ∀ (fuel : Nat) (queue : List Coord) (visited : Finset Nat)
      (pixels : List Coord) (size : Nat),
      9 * ((Finset.range buffer.length) \ visited).card + queue.length ≤ fuel →
      ∃ added : List Coord,
        (findClusterAux buffer width height fuel queue visited pixels size).1
            = pixels ++ added ∧
        (findClusterAux buffer width height fuel queue visited pixels size).2.1
            = size + added.length ∧
        (findClusterAux buffer width height fuel queue visited pixels size).2.2
            = visited ∪ (added.map (posOf width)).toFinset ∧
        (added.map (posOf width)).Nodup ∧
        (∀ p ∈ added, isDiffPixel buffer (posOf width p) = true ∧
          posOf width p ∉ visited ∧ (p ∈ queue ∨ (p.1 < width ∧ p.2 < height))) ∧
        (∀ p ∈ queue, isDiffPixel buffer (posOf width p) = true →
          posOf width p ∉ visited →
          posOf width p ∈ (findClusterAux buffer width height fuel queue visited pixels size).2.2) := by
  intro fuel
  induction fuel with
  | zero =>
    intro queue visited pixels size hm
    have hq : queue = [] := List.length_eq_zero.mp (by omega)
    subst hq
    refine ⟨[], ?_, ?_, ?_, ?_, ?_, ?_⟩ <;> simp [findClusterAux_nil]
  | succ f ih =>
    intro queue visited pixels size hm
    match queue with
    | [] =>
      refine ⟨[], ?_, ?_, ?_, ?_, ?_, ?_⟩ <;> simp [findClusterAux_nil]
    | c :: rest =>
      by_cases hskip : posOf width c ∈ visited ∨ isDiffPixel buffer (posOf width c) = false
      · rw [findClusterAux_cons_skip hskip]
        have hm2 : 9 * ((Finset.range buffer.length) \ visited).card + rest.length ≤ f := by
          simp only [List.length_cons] at hm; omega
        obtain ⟨added, h1, h2, h3, h4, h5, h6⟩ := ih rest visited pixels size hm2
        refine ⟨added, h1, h2, h3, h4, ?_, ?_⟩
        · intro p hp
          obtain ⟨ha, hb, hc⟩ := h5 p hp
          exact ⟨ha, hb, hc.imp (List.mem_cons_of_mem _) id⟩
        · intro p hp hpd hpv
          rcases List.mem_cons.mp hp with rfl | hp
          · exact absurd hskip (by simp [hpd, hpv])
          · exact h6 p hp hpd hpv
      · push_neg at hskip
        obtain ⟨hnv, hdiff⟩ := hskip
        replace hdiff : isDiffPixel buffer (posOf width c) = true := by
          cases h : isDiffPixel buffer (posOf width c)
          · exact absurd h hdiff
          · rfl
        rw [findClusterAux_cons_process hnv hdiff]
        have hlt : posOf width c < buffer.length := isDiffPixel_lt_length hdiff
        have hmem : posOf width c ∈ Finset.range buffer.length \ visited := by
          simp [Finset.mem_sdiff, Finset.mem_range, hlt, hnv]
        have hcard : ((Finset.range buffer.length) \ insert (posOf width c) visited).card
            = ((Finset.range buffer.length) \ visited).card - 1 := by
          rw [Finset.sdiff_insert, Finset.card_erase_of_mem hmem]
        have hpos : 1 ≤ ((Finset.range buffer.length) \ visited).card :=
          Finset.card_pos.mpr ⟨_, hmem⟩
        have hn8 : ((neighborList c width height).filter fun n =>
            decide (posOf width n ∉ insert (posOf width c) visited)).length ≤ 8 :=
          le_trans (List.length_filter_le _ _) (neighborList_length_le c width height)
        have hm2 : 9 * ((Finset.range buffer.length) \ insert (posOf width c) visited).card
            + (rest ++ (neighborList c width height).filter fun n =>
                decide (posOf width n ∉ insert (posOf width c) visited)).length ≤ f := by
          rw [hcard, List.length_append]
          simp only [List.length_cons] at hm
          omega
        obtain ⟨added, h1, h2, h3, h4, h5, h6⟩ :=
          ih _ (insert (posOf width c) visited) (pixels ++ [c]) (size + 1) hm2
        refine ⟨c :: added, ?_, ?_, ?_, ?_, ?_, ?_⟩
        · rw [h1, List.append_assoc, List.singleton_append]
        · rw [h2, List.length_cons]; omega
        · rw [h3]
          ext a
          simp only [Finset.mem_union, Finset.mem_insert, List.map_cons,
            List.toFinset_cons, List.mem_toFinset]
          tauto
        · rw [List.map_cons]
          refine List.Nodup.cons ?_ h4
          intro hin
          rw [List.mem_map] at hin
          obtain ⟨p, hp, hpp⟩ := hin
          exact (h5 p hp).2.1 (hpp ▸ Finset.mem_insert_self _ _)
        · intro p hp
          rcases List.mem_cons.mp hp with rfl | hp
          · exact ⟨hdiff, hnv, Or.inl (List.mem_cons_self _ _)⟩
          · obtain ⟨ha, hb, hc⟩ := h5 p hp
            refine ⟨ha, fun hv => hb (Finset.mem_insert_of_mem hv), ?_⟩
            rcases hc with hc | hc
            · rcases List.mem_append.mp hc with hc | hc
              · exact Or.inl (List.mem_cons_of_mem _ hc)
              · exact Or.inr (mem_neighborList_inBounds (List.mem_of_mem_filter hc))
            · exact Or.inr hc
        · intro p hp hpd hpv
          have hsub : insert (posOf width c) visited
              ⊆ (findClusterAux buffer width height f
                (rest ++ (neighborList c width height).filter fun n =>
                  decide (posOf width n ∉ insert (posOf width c) visited))
                (insert (posOf width c) visited) (pixels ++ [c]) (size + 1)).2.2 := by
            rw [h3]; exact Finset.subset_union_left
          rcases List.mem_cons.mp hp with rfl | hp
          · exact hsub (Finset.mem_insert_self _ _)
          · by_cases hpc : posOf width p = posOf width c
            · exact hsub (hpc ▸ Finset.mem_insert_self _ _)
            · exact h6 p (List.mem_append_left _ hp) hpd
                (by simp [Finset.mem_insert, hpc, hpv])

/-- Positions of a list of coordinates, as a finite set. -/
def posFinset (width : Nat) (l : List Coord) : Finset Nat :=
  (l.map (posOf width)).toFinset

/-- Union of the position sets of the pixels of a list of clusters. -/
def clustersUnion (width : Nat) (cls : List Cluster) : Finset Nat :=
  cls.foldr (fun cl s => posFinset width cl.pixels ∪ s) ∅

lemma mem_clustersUnion {width : Nat} {cls : List Cluster} {x : Nat} :
    x ∈ clustersUnion width cls ↔ ∃ cl ∈ cls, x ∈ posFinset width cl.pixels := by
  induction cls with
  | nil => simp [clustersUnion]
  | cons h t ih =>
    simp only [clustersUnion, List.foldr_cons, Finset.mem_union, List.mem_cons]
    rw [show (t.foldr (fun cl s => posFinset width cl.pixels ∪ s) ∅)
      = clustersUnion width t from rfl]
    constructor
    · rintro (hx | hx)
      · exact ⟨h, Or.inl rfl, hx⟩
      · obtain ⟨cl, hcl, hxcl⟩ := ih.mp hx
        exact ⟨cl, Or.inr hcl, hxcl⟩
    · rintro ⟨cl, rfl | hcl, hxcl⟩
      · exact Or.inl hxcl
      · exact Or.inr (ih.mpr ⟨cl, hcl, hxcl⟩)

/-- Specification of a single _findCluster call: the returned cluster
consists of fresh diff pixels, pairwise distinct, each either the seed or
in bounds; its size counts them; the visited set grows by exactly their
positions; and a diff-pixel unvisited seed gets visited. -/
lemma findCluster_spec (buffer : List Nat) (sx sy width height : Nat)
    (visited : Finset Nat) (ratio : ℚ) :
    (findCluster buffer sx sy width height visited ratio).1.size
        = (findCluster buffer sx sy width height visited ratio).1.pixels.length ∧
    (((findCluster buffer sx sy width height visited ratio).1.pixels.map (posOf width)).Nodup) ∧
    (findCluster buffer sx sy width height visited ratio).2
        = visited ∪ posFinset width (findCluster buffer sx sy width height visited ratio).1.pixels ∧
    (∀ p ∈ (findCluster buffer sx sy width height visited ratio).1.pixels,
      isDiffPixel buffer (posOf width p) = true ∧ posOf width p ∉ visited ∧
        (p = (sx, sy) ∨ (p.1 < width ∧ p.2 < height))) ∧
    (isDiffPixel buffer (posOf width (sx, sy)) = true → posOf width (sx, sy) ∉ visited →
      posOf width (sx, sy) ∈ (findCluster buffer sx sy width height visited ratio).2) ∧
    (findCluster buffer sx sy width height visited ratio).1.isLineShift
        = detectLineShift (findCluster buffer sx sy width height visited ratio).1.pixels
            buffer width height ratio := by
  have hfuel : 9 * ((Finset.range buffer.length) \ visited).card + ([((sx : Nat), (sy : Nat))] : List Coord).length
      ≤ 9 * buffer.length + 1 := by
    have hle : ((Finset.range buffer.length) \ visited).card ≤ buffer.length := by
      calc ((Finset.range buffer.length) \ visited).card
          ≤ (Finset.range buffer.length).card := Finset.card_le_card Finset.sdiff_subset
        _ = buffer.length := Finset.card_range _
    simp only [List.length_singleton]
    omega
  obtain ⟨added, h1, h2, h3, h4, h5, h6⟩ :=
    findClusterAux_spec buffer width height (9 * buffer.length + 1)
      [(sx, sy)] visited [] 0 hfuel
  simp only [List.nil_append] at h1
  constructor
  · show (findClusterAux buffer width height _ _ _ _ _).2.1
      = (findClusterAux buffer width height _ _ _ _ _).1.length
    rw [h1, h2, Nat.zero_add]
  refine ⟨?_, ?_, ?_, ?_, ?_⟩
  · show ((findClusterAux buffer width height _ _ _ _ _).1.map (posOf width)).Nodup
    rw [h1]; exact h4
  · show (findClusterAux buffer width height _ _ _ _ _).2.2
      = visited ∪ posFinset width (findClusterAux buffer width height _ _ _ _ _).1
    rw [h1, h3]; rfl
  · intro p hp
    rw [show (findCluster buffer sx sy width height visited ratio).1.pixels
      = (findClusterAux buffer width height (9 * buffer.length + 1)
          [(sx, sy)] visited [] 0).1 from rfl, h1] at hp
    obtain ⟨ha, hb, hc⟩ := h5 p hp
    refine ⟨ha, hb, ?_⟩
    rcases hc with hc | hc
    · exact Or.inl (List.mem_singleton.mp hc)
    · exact Or.inr hc
  · intro hd hv
    exact h6 (sx, sy) (List.mem_singleton_self _) hd hv
  · rfl

/-- Invariant of the outer scan loop: the clusters it appends hold fresh,
in-bounds, pairwise distinct diff pixels, are mutually position-disjoint,
their sizes count their pixels, the visited set ends as the union of the
incoming one with all their positions, and every diff pixel of the scan
list ends visited. -/
lemma analyzeLoop_spec (buffer : List Nat) (width height : Nat) (ratio : ℚ) :
    ∀ (scan : List Coord), (∀ c ∈ scan, c.1 < width ∧ c.2 < height) →
    ∀ (visited : Finset Nat) (clusters : List Cluster),
      ∃ added : List Cluster,
        (analyzeLoop buffer width height ratio scan visited clusters).1
            = clusters ++ added ∧
        (analyzeLoop buffer width height ratio scan visited clusters).2
            = visited ∪ clustersUnion width added ∧
        (∀ cl ∈ added,
          cl.size = cl.pixels.length ∧
          (cl.pixels.map (posOf width)).Nodup ∧
          cl.isLineShift = detectLineShift cl.pixels buffer width height ratio ∧
          ∀ p ∈ cl.pixels, isDiffPixel buffer (posOf width p) = true ∧
            p.1 < width ∧ p.2 < height ∧ posOf width p ∉ visited) ∧
        List.Pairwise (fun a b =>
          Disjoint (posFinset width a.pixels) (posFinset width b.pixels)) added ∧
        (∀ c ∈ scan, isDiffPixel buffer (posOf width c) = true →
          posOf width c ∈ (analyzeLoop buffer width height ratio scan visited clusters).2) := by
  intro scan
  induction scan with
  | nil =>
    intro _ visited clusters
    exact ⟨[], by simp [analyzeLoop, clustersUnion]⟩
  | cons c rest ih =>
    intro hscan visited clusters
    have hc := hscan c (List.mem_cons_self _ _)
    have hrest : ∀ d ∈ rest, d.1 < width ∧ d.2 < height :=
      fun d hd => hscan d (List.mem_cons_of_mem _ hd)
    by_cases hcond : isDiffPixel buffer (posOf width c) = true ∧ posOf width c ∉ visited
    · have hunfold : analyzeLoop buffer width height ratio (c :: rest) visited clusters
          = analyzeLoop buffer width height ratio rest
              (findCluster buffer c.1 c.2 width height visited ratio).2
              (clusters ++ [(findCluster buffer c.1 c.2 width height visited ratio).1]) := by
        simp only [analyzeLoop, if_pos hcond]
      obtain ⟨hsize, hnodup, hvis, hpix, hseed, hshift⟩ :=
        findCluster_spec buffer c.1 c.2 width height visited ratio
      set F := findCluster buffer c.1 c.2 width height visited ratio with hF
      obtain ⟨added, h1, h2, h3, h4, h5⟩ := ih hrest F.2 (clusters ++ [F.1])
      rw [hunfold]
      refine ⟨F.1 :: added, ?_, ?_, ?_, ?_, ?_⟩
      · rw [h1, List.append_assoc, List.singleton_append]
      · rw [h2, hvis]
        rw [show clustersUnion width (F.1 :: added)
          = posFinset width F.1.pixels ∪ clustersUnion width added from rfl]
        rw [Finset.union_assoc]
      · intro cl hcl
        rcases List.mem_cons.mp hcl with rfl | hcl
        · refine ⟨hsize, hnodup, hshift, ?_⟩
          intro p hp
          obtain ⟨ha, hb, hc2⟩ := hpix p hp
          refine ⟨ha, ?_, ?_, hb⟩
          · rcases hc2 with rfl | hc2
            · exact hc.1
            · exact hc2.1
          · rcases hc2 with rfl | hc2
            · exact hc.2
            · exact hc2.2
        · obtain ⟨ha, hb, hc2, hd⟩ := h3 cl hcl
          refine ⟨ha, hb, hc2, ?_⟩
          intro p hp
          obtain ⟨hp1, hp2, hp3, hp4⟩ := hd p hp
          refine ⟨hp1, hp2, hp3, fun hv => hp4 ?_⟩
          rw [hvis]
          exact Finset.mem_union_left _ hv
      · refine List.Pairwise.cons ?_ h4
        intro b hb
        rw [Finset.disjoint_left]
        intro x hxF hxb
        obtain ⟨-, -, -, hd⟩ := h3 b hb
        simp only [posFinset, List.mem_toFinset, List.mem_map] at hxb
        obtain ⟨p, hp, rfl⟩ := hxb
        exact (hd p hp).2.2.2 (by rw [hvis]; exact Finset.mem_union_right _ hxF)
      · intro d hd hdd
        rcases List.mem_cons.mp hd with rfl | hd
        · have : posOf width d ∈ F.2 := hseed hdd hcond.2
          rw [h2]
          rw [hvis] at this
          rcases Finset.mem_union.mp this with hthis | hthis
          · exact Finset.mem_union_left _ (by rw [hvis]; exact Finset.mem_union_left _ hthis)
          · exact Finset.mem_union_left _ (by rw [hvis]; exact Finset.mem_union_right _ hthis)
        · exact h5 d hd hdd
    · have hunfold : analyzeLoop buffer width height ratio (c :: rest) visited clusters
          = analyzeLoop buffer width height ratio rest visited clusters := by
        simp only [analyzeLoop, if_neg hcond]
      obtain ⟨added, h1, h2, h3, h4, h5⟩ := ih hrest visited clusters
      rw [hunfold]
      refine ⟨added, h1, h2, h3, h4, ?_⟩
      intro d hd hdd
      rcases List.mem_cons.mp hd with rfl | hd
      · have hv : posOf width d ∈ visited := by
          by_contra hnv
          exact hcond ⟨hdd, hnv⟩
        rw [h2]
        exact Finset.mem_union_left _ hv
      · exact h5 d hd hdd

lemma mem_scanOrder {width height : Nat} {c : Coord} :
    c ∈ scanOrder width height ↔ c.1 < width ∧ c.2 < height := by
  obtain ⟨x, y⟩ := c
  simp only [scanOrder, List.mem_flatMap, List.mem_map, List.mem_range]
  constructor
  · rintro ⟨y0, hy0, x0, hx0, heq⟩
    cases heq
    exact ⟨hx0, hy0⟩
  · rintro ⟨hx, hy⟩
    exact ⟨y, hy, x, hx, rfl⟩

lemma foldl_add_size (l : List Cluster) (init : Nat) :
    l.foldl (fun sum cl => sum + cl.size) init = init + (l.map Cluster.size).sum := by
  induction l generalizing init with
  | nil => simp
  | cons h t ih => simp [List.foldl_cons, ih, Nat.add_assoc]

/-- Structural description of an analyzeClusters result: the returned
aggregate counts are the length and size-sum of the significance-filtered
cluster list, every cluster consists of in-bounds diff pixels with correct
size and pairwise distinct positions, the clusters are mutually disjoint,
and every in-grid diff pixel is covered. -/
lemma analyzeClusters_spec (ratio : ℚ) (buffer : List Nat)
    (width height minClusterSize : Nat) :
    (∀ cl ∈ (analyzeClusters ratio buffer width height minClusterSize).clusters,
      cl.size = cl.pixels.length ∧
      (cl.pixels.map (posOf width)).Nodup ∧
      cl.isLineShift = detectLineShift cl.pixels buffer width height ratio ∧
      ∀ p ∈ cl.pixels, isDiffPixel buffer (posOf width p) = true ∧
        p.1 < width ∧ p.2 < height) ∧
    List.Pairwise (fun a b =>
      Disjoint (posFinset width a.pixels) (posFinset width b.pixels))
      (analyzeClusters ratio buffer width height minClusterSize).clusters ∧
    (∀ c : Coord, c.1 < width → c.2 < height →
      isDiffPixel buffer (posOf width c) = true →
      posOf width c ∈ clustersUnion width
        (analyzeClusters ratio buffer width height minClusterSize).clusters) ∧
    (analyzeClusters ratio buffer width height minClusterSize).significantClusters
      = ((analyzeClusters ratio buffer width height minClusterSize).clusters.filter
          (isSignificantCluster minClusterSize)).length ∧
    (analyzeClusters ratio buffer width height minClusterSize).significantPixels
      = (((analyzeClusters ratio buffer width height minClusterSize).clusters.filter
          (isSignificantCluster minClusterSize)).map Cluster.size).sum ∧
    (analyzeClusters ratio buffer width height minClusterSize).totalClusters
      = (analyzeClusters ratio buffer width height minClusterSize).clusters.length := by
  obtain ⟨added, h1, h2, h3, h4, h5⟩ :=
    analyzeLoop_spec buffer width height ratio (scanOrder width height)
      (fun c hc => mem_scanOrder.mp hc) ∅ []
  simp only [List.nil_append] at h1
  have hcl : (analyzeClusters ratio buffer width height minClusterSize).clusters = added := by
    simp only [analyzeClusters]
    exact h1
  refine ⟨?_, ?_, ?_, ?_, ?_, ?_⟩
  · intro cl hcl2
    rw [hcl] at hcl2
    obtain ⟨ha, hb, hc, hd⟩ := h3 cl hcl2
    exact ⟨ha, hb, hc, fun p hp => ⟨(hd p hp).1, (hd p hp).2.1, (hd p hp).2.2.1⟩⟩
  · rw [hcl]; exact h4
  · intro c hcx hcy hcd
    have := h5 c (mem_scanOrder.mpr ⟨hcx, hcy⟩) hcd
    rw [h2, Finset.empty_union] at this
    rw [hcl]
    exact this
  · simp only [analyzeClusters, h1]
  · simp only [analyzeClusters, h1, foldl_add_size, Nat.zero_add]
  · simp only [analyzeClusters, h1]

/-- The set of positions of in-grid differing pixels of a mask. -/
def diffGridPos (buffer : List Nat) (width height : Nat) : Finset Nat :=
  (((Finset.range width) ×ˢ (Finset.range height)).filter fun c =>
    isDiffPixel buffer (posOf width (c.1, c.2)) = true).image fun c => posOf width (c.1, c.2)

/-- The clusters discovered on a mask cover exactly the in-grid differing
positions. -/
lemma clustersUnion_eq_diffGridPos (ratio : ℚ) (buffer : List Nat)
    (width height minClusterSize : Nat) :
    clustersUnion width (analyzeClusters ratio buffer width height minClusterSize).clusters
      = diffGridPos buffer width height := by
  obtain ⟨hmem, -, hcover, -, -, -⟩ :=
    analyzeClusters_spec ratio buffer width height minClusterSize
  ext x
  constructor
  · intro hx
    obtain ⟨cl, hcl, hxcl⟩ := mem_clustersUnion.mp hx
    simp only [posFinset, List.mem_toFinset, List.mem_map] at hxcl
    obtain ⟨p, hp, rfl⟩ := hxcl
    obtain ⟨hpd, hpx, hpy⟩ := (hmem cl hcl).2.2.2 p hp
    simp only [diffGridPos, Finset.mem_image, Finset.mem_filter, Finset.mem_product,
      Finset.mem_range]
    exact ⟨p, ⟨⟨hpx, hpy⟩, hpd⟩, rfl⟩
  · intro hx
    simp only [diffGridPos, Finset.mem_image, Finset.mem_filter, Finset.mem_product,
      Finset.mem_range] at hx
    obtain ⟨c, ⟨⟨hcx, hcy⟩, hcd⟩, rfl⟩ := hx
    exact hcover (c.1, c.2) hcx hcy hcd

lemma countP_eq_one_of_pairwise {α : Type} {l : List α} {P : α → Bool}
    (hpw : l.Pairwise fun a b => ¬(P a = true ∧ P b = true))
    (hex : ∃ a ∈ l, P a = true) : l.countP P = 1 := by
  induction l with
  | nil => simp at hex
  | cons h t ih =>
    obtain ⟨hhead, htail⟩ := List.pairwise_cons.mp hpw
    by_cases hP : P h = true
    · have hzero : t.countP P = 0 := by
        rw [List.countP_eq_zero]
        intro b hb hPb
        exact hhead b hb ⟨hP, hPb⟩
      rw [List.countP_cons, hzero]
      simp [hP]
    · rw [List.countP_cons]
      have h0 : (if P h = true then 1 else 0) = 0 := by simp [hP]
      rw [h0, Nat.add_zero]
      refine ih htail ?_
      obtain ⟨a, ha, hPa⟩ := hex
      rcases List.mem_cons.mp ha with rfl | ha
      · exact absurd hPa hP
      · exact ⟨a, ha, hPa⟩

lemma disjoint_clustersUnion {width : Nat} {s : Finset Nat} {l : List Cluster}
    (h : ∀ cl ∈ l, Disjoint s (posFinset width cl.pixels)) :
    Disjoint s (clustersUnion width l) := by
  induction l with
  | nil => simp [clustersUnion]
  | cons hd t ih =>
    rw [show clustersUnion width (hd :: t)
      = posFinset width hd.pixels ∪ clustersUnion width t from rfl,
      Finset.disjoint_union_right]
    exact ⟨h hd (List.mem_cons_self _ _), ih fun cl hcl => h cl (List.mem_cons_of_mem _ hcl)⟩

lemma card_clustersUnion {width : Nat} {l : List Cluster}
    (hnd : ∀ cl ∈ l, (cl.pixels.map (posOf width)).Nodup)
    (hpw : List.Pairwise (fun a b =>
      Disjoint (posFinset width a.pixels) (posFinset width b.pixels)) l) :
    (clustersUnion width l).card = (l.map fun cl => cl.pixels.length).sum := by
  induction l with
  | nil => simp [clustersUnion]
  | cons hd t ih =>
    obtain ⟨hhead, htail⟩ := List.pairwise_cons.mp hpw
    have hdisj : Disjoint (posFinset width hd.pixels) (clustersUnion width t) :=
      disjoint_clustersUnion fun cl hcl => hhead cl hcl
    rw [show clustersUnion width (hd :: t)
      = posFinset width hd.pixels ∪ clustersUnion width t from rfl,
      Finset.card_union_of_disjoint hdisj,
      ih (fun cl hcl => hnd cl (List.mem_cons_of_mem _ hcl)) htail]
    have hcard : (posFinset width hd.pixels).card = hd.pixels.length := by
      rw [posFinset, List.toFinset_card_of_nodup (hnd hd (List.mem_cons_self _ _))]
      exact List.length_map _ _
    rw [List.map_cons, List.sum_cons, hcard]

lemma card_diffGridPos (buffer : List Nat) (width height : Nat) :
    (diffGridPos buffer width height).card
      = (((Finset.range width) ×ˢ (Finset.range height)).filter fun c =>
          isDiffPixel buffer (posOf width (c.1, c.2)) = true).card := by
  apply Finset.card_image_of_injOn
  intro a ha b hb hab
  simp only [Finset.coe_filter, Set.mem_setOf_eq, Finset.mem_product, Finset.mem_range] at ha hb
  have heq := posOf_inj (p := (a.1, a.2)) (q := (b.1, b.2)) ha.1.1 hb.1.1 hab
  exact Prod.ext (congrArg Prod.fst heq) (congrArg Prod.snd heq)

/-- Each in-grid differing pixel belongs to exactly one discovered
cluster. -/
lemma analyzeClusters_countP_eq_one (ratio : ℚ) (buffer : List Nat)
    (width height minClusterSize : Nat) (c : Coord)
    (hcx : c.1 < width) (hcy : c.2 < height)
    (hcd : isDiffPixel buffer (posOf width c) = true) :
    ((analyzeClusters ratio buffer width height minClusterSize).clusters.countP
      fun cl => decide (c ∈ cl.pixels)) = 1 := by
  obtain ⟨hmem, hpw, hcover, -, -, -⟩ :=
    analyzeClusters_spec ratio buffer width height minClusterSize
  refine countP_eq_one_of_pairwise ?_ ?_
  · refine hpw.imp ?_
    intro a b hdis hab
    obtain ⟨ha, hb⟩ := hab
    rw [decide_eq_true_iff] at ha hb
    have hma : posOf width c ∈ posFinset width a.pixels := by
      simp only [posFinset, List.mem_toFinset, List.mem_map]
      exact ⟨c, ha, rfl⟩
    have hmb : posOf width c ∈ posFinset width b.pixels := by
      simp only [posFinset, List.mem_toFinset, List.mem_map]
      exact ⟨c, hb, rfl⟩
    exact Finset.disjoint_left.mp hdis hma hmb
  · have := hcover c hcx hcy hcd
    obtain ⟨cl, hcl, hxcl⟩ := mem_clustersUnion.mp this
    simp only [posFinset, List.mem_toFinset, List.mem_map] at hxcl
    obtain ⟨p, hp, hpeq⟩ := hxcl
    obtain ⟨-, hpx, hpy⟩ := (hmem cl hcl).2.2.2 p hp
    have hpc : p = c := posOf_inj hpx hcx hpeq
    exact ⟨cl, hcl, by rw [decide_eq_true_iff]; exact hpc ▸ hp⟩

/-! ### Characterization of the 8-connected neighborhood -/

/-- Two coordinates at Chebyshev distance exactly 1: distinct, and each
component within 1. -/
abbrev chebyshevAdjacent (c n : Coord) : Prop :=
  (n.1 ≠ c.1 ∨ n.2 ≠ c.2) ∧ n.1 ≤ c.1 + 1 ∧ c.1 ≤ n.1 + 1 ∧ n.2 ≤ c.2 + 1 ∧ c.2 ≤ n.2 + 1

lemma mem_neighborList {c n : Coord} {width height : Nat} :
    n ∈ neighborList c width height ↔
      (n.1 < width ∧ n.2 < height ∧ chebyshevAdjacent c n) := by
  obtain ⟨x, y⟩ := c
  obtain ⟨nx, ny⟩ := n
  simp only [neighborList, neighborOffsets, List.mem_filterMap, List.mem_cons,
    List.not_mem_nil, or_false]
  constructor
  · rintro ⟨d, hd, hopt⟩
    rcases hd with rfl | rfl | rfl | rfl | rfl | rfl | rfl | rfl <;>
      (split_ifs at hopt with hb
       simp only [Option.some.injEq, Prod.mk.injEq] at hopt
       obtain ⟨h1, h2⟩ := hopt
       refine ⟨by omega, by omega, ?_, by omega, by omega, by omega, by omega⟩
       simp only [ne_eq]
       omega)
  · rintro ⟨hx, hy, hne, h1, h2, h3, h4⟩
    simp only [ne_eq] at hne
    have hdx : nx + 1 = x ∨ nx = x ∨ nx = x + 1 := by omega
    have hdy : ny + 1 = y ∨ ny = y ∨ ny = y + 1 := by omega
    rcases hdx with hx1 | hx1 | hx1 <;> rcases hdy with hy1 | hy1 | hy1
    · refine ⟨(-1, -1), by tauto, ?_⟩
      rw [if_pos (by constructor <;> omega)]
      simp only [Option.some.injEq, Prod.mk.injEq]
      constructor <;> omega
    · refine ⟨(-1, 0), by tauto, ?_⟩
      rw [if_pos (by constructor <;> omega)]
      simp only [Option.some.injEq, Prod.mk.injEq]
      constructor <;> omega
    · refine ⟨(-1, 1), by tauto, ?_⟩
      rw [if_pos (by constructor <;> omega)]
      simp only [Option.some.injEq, Prod.mk.injEq]
      constructor <;> omega
    · refine ⟨(0, -1), by tauto, ?_⟩
      rw [if_pos (by constructor <;> omega)]
      simp only [Option.some.injEq, Prod.mk.injEq]
      constructor <;> omega
    · exact (by omega : False).elim
    · refine ⟨(0, 1), by tauto, ?_⟩
      rw [if_pos (by constructor <;> omega)]
      simp only [Option.some.injEq, Prod.mk.injEq]
      constructor <;> omega
    · refine ⟨(1, -1), by tauto, ?_⟩
      rw [if_pos (by constructor <;> omega)]
      simp only [Option.some.injEq, Prod.mk.injEq]
      constructor <;> omega
    · refine ⟨(1, 0), by tauto, ?_⟩
      rw [if_pos (by constructor <;> omega)]
      simp only [Option.some.injEq, Prod.mk.injEq]
      constructor <;> omega
    · refine ⟨(1, 1), by tauto, ?_⟩
      rw [if_pos (by constructor <;> omega)]
      simp only [Option.some.injEq, Prod.mk.injEq]
      constructor <;> omega

lemma neighborList_nodup (c : Coord) (width height : Nat) :
    (neighborList c width height).Nodup := by
  refine List.Nodup.filterMap ?_ ?_
  · rintro ⟨dx, dy⟩ ⟨dx2, dy2⟩ ⟨bx, by2⟩ h1 h2
    simp only [Option.mem_def] at h1 h2
    split_ifs at h1 h2 with hb1 hb2
    simp only [Option.some.injEq, Prod.mk.injEq] at h1 h2
    have e1 : dx = dx2 := by omega
    have e2 : dy = dy2 := by omega
    rw [e1, e2]
  · decide

/-- Count of differing in-bounds 8-neighbors, written over the grid as a
finite set with the Chebyshev adjacency relation; this is the
specification-level reading of the neighbor loop. -/
def specNeighborCount (buffer : List Nat) (width height : Nat) (c : Coord) : Nat :=
  (((Finset.range width) ×ˢ (Finset.range height)).filter fun n =>
    chebyshevAdjacent c n ∧ isDiffPixel buffer (posOf width n) = true).card

lemma countP_neighborList_eq (buffer : List Nat) (c : Coord) (width height : Nat) :
    ((neighborList c width height).countP fun n => isDiffPixel buffer (posOf width n))
      = specNeighborCount buffer width height c := by
  rw [List.countP_eq_length_filter, specNeighborCount]
  have hnd : ((neighborList c width height).filter fun n =>
      isDiffPixel buffer (posOf width n)).Nodup :=
    (neighborList_nodup c width height).filter _
  rw [← List.toFinset_card_of_nodup hnd]
  congr 1
  ext n
  simp only [List.mem_toFinset, List.mem_filter, mem_neighborList, Finset.mem_filter,
    Finset.mem_product, Finset.mem_range]
  tauto

/-- Count of line-like pixels of a pixel list: those with at most two
differing neighbors in the mask. -/
def specLineLikeCount (buffer : List Nat) (width height : Nat)
    (pixels : List Coord) : Nat :=
  pixels.countP fun p => decide (specNeighborCount buffer width height p ≤ 2)

/-- The line-shift classifier, characterized against the specification
reading: true exactly on a nonempty pixel list whose fraction of
line-like pixels strictly exceeds the threshold. -/
lemma detectLineShift_iff (pixels : List Coord) (buffer : List Nat)
    (width height : Nat) (ratio : ℚ) :
    detectLineShift pixels buffer width height ratio = true ↔
      (0 < pixels.length ∧
        ratio < (specLineLikeCount buffer width height pixels : ℚ) / (pixels.length : ℚ)) := by
  unfold detectLineShift
  split_ifs with hlen
  · simp [hlen]
  · have hlen2 : 0 < pixels.length := Nat.pos_of_ne_zero hlen
    have hcount : (pixels.countP fun c =>
        decide (((neighborList c width height).countP fun n =>
          isDiffPixel buffer (posOf width n)) ≤ 2))
        = specLineLikeCount buffer width height pixels := by
      rw [specLineLikeCount]
      apply List.countP_congr
      intro p _
      simp only [decide_eq_true_iff, countP_neighborList_eq]
    rw [hcount, decide_eq_true_iff]
    rw [Rat.divInt_eq_div]
    push_cast
    simp [hlen2]

/-! ### Claim theorems -/

/-- C1: a comparison that completes with raw diff count 0 returns
unconditionally ok with diffCount 0, an empty cluster list and no cluster
analysis (the Cluster Analyzer is not invoked); with a positive raw diff
count the verdict is ok exactly when the significant pixels are 0, or
within maxTotalDiffPixels with at most maxSignificantClusters significant
clusters. -/
theorem claim_C1 (instOptions : Options) (diffBuffer : List Nat)
    (diffCount width height : Nat) (mergedOptions : Options) :
    (diffCount = 0 →
      compareFromDiff instOptions diffBuffer diffCount width height mergedOptions
        = ⟨true, 0, diffBuffer, ⟨0, 0, [], none⟩⟩) ∧
    (0 < diffCount →
      ((compareFromDiff instOptions diffBuffer diffCount width height mergedOptions).ok
          = true ↔
        ((analyzeClusters instOptions.lineShiftThreshold diffBuffer width height
            mergedOptions.minClusterSize).significantPixels = 0 ∨
          ((analyzeClusters instOptions.lineShiftThreshold diffBuffer width height
              mergedOptions.minClusterSize).significantPixels
              ≤ mergedOptions.maxTotalDiffPixels ∧
           (analyzeClusters instOptions.lineShiftThreshold diffBuffer width height
              mergedOptions.minClusterSize).significantClusters
              ≤ mergedOptions.maxSignificantClusters)))) := by
  constructor
  · intro h
    subst h
    rfl
  · intro hpos
    have hne : ¬(diffCount = 0) := by omega
    simp only [compareFromDiff, if_neg hne, evaluateSignificance, Bool.or_eq_true,
      Bool.and_eq_true, decide_eq_true_iff]

/-- Closed instance of C1 at a concrete mask on both branches. -/
theorem claim_C1_witness :
    (compareFromDiff defaultOptions [255,0,0,255] 0 1 1 defaultOptions
      = ⟨true, 0, [255,0,0,255], ⟨0, 0, [], none⟩⟩) ∧
    ((compareFromDiff defaultOptions [255,0,0,255] 1 1 1 defaultOptions).ok = true ↔
      ((analyzeClusters defaultOptions.lineShiftThreshold [255,0,0,255] 1 1
          defaultOptions.minClusterSize).significantPixels = 0 ∨
        ((analyzeClusters defaultOptions.lineShiftThreshold [255,0,0,255] 1 1
            defaultOptions.minClusterSize).significantPixels
            ≤ defaultOptions.maxTotalDiffPixels ∧
         (analyzeClusters defaultOptions.lineShiftThreshold [255,0,0,255] 1 1
            defaultOptions.minClusterSize).significantClusters
            ≤ defaultOptions.maxSignificantClusters))) :=
  ⟨(claim_C1 defaultOptions [255,0,0,255] 0 1 1 defaultOptions).1 rfl,
   (claim_C1 defaultOptions [255,0,0,255] 1 1 1 defaultOptions).2 (by decide)⟩

/-- C2: the clusters partition the differing pixels of the mask: an
in-grid position is differing exactly when it lies in exactly one
cluster's pixel list, cluster pixels are in-grid differing positions
without duplicates, and each cluster's size field counts its pixels. -/
theorem claim_C2 (ratio : ℚ) (buffer : List Nat) (width height minClusterSize : Nat) :
    (∀ c : Coord, c.1 < width → c.2 < height →
      (isDiffPixel buffer (posOf width c) = true ↔
        ((analyzeClusters ratio buffer width height minClusterSize).clusters.countP
          fun cl => decide (c ∈ cl.pixels)) = 1)) ∧
    (∀ cl ∈ (analyzeClusters ratio buffer width height minClusterSize).clusters,
      ∀ p ∈ cl.pixels, p.1 < width ∧ p.2 < height ∧
        isDiffPixel buffer (posOf width p) = true) ∧
    (∀ cl ∈ (analyzeClusters ratio buffer width height minClusterSize).clusters,
      cl.pixels.Nodup) ∧
    (∀ cl ∈ (analyzeClusters ratio buffer width height minClusterSize).clusters,
      cl.size = cl.pixels.length) := by
  obtain ⟨hmem, hpw, hcover, -, -, -⟩ :=
    analyzeClusters_spec ratio buffer width height minClusterSize
  refine ⟨?_, ?_, ?_, ?_⟩
  · intro c hcx hcy
    constructor
    · intro hcd
      exact analyzeClusters_countP_eq_one ratio buffer width height minClusterSize
        c hcx hcy hcd
    · intro hcount
      have hpos : 0 < (analyzeClusters ratio buffer width height minClusterSize).clusters.countP
          fun cl => decide (c ∈ cl.pixels) := by omega
      obtain ⟨cl, hcl, hccl⟩ := List.countP_pos_iff.mp hpos
      rw [decide_eq_true_iff] at hccl
      exact ((hmem cl hcl).2.2.2 c hccl).1
  · intro cl hcl p hp
    obtain ⟨hpd, hpx, hpy⟩ := (hmem cl hcl).2.2.2 p hp
    exact ⟨hpx, hpy, hpd⟩
  · intro cl hcl
    exact ((hmem cl hcl).2.1).of_map
  · intro cl hcl
    exact (hmem cl hcl).1

/-- Closed instance of C2 on a 2 by 1 mask with one red pixel. -/
theorem claim_C2_witness :
    (isDiffPixel [255,0,0,255, 0,0,0,255] (posOf 2 (0, 0)) = true ↔
      ((analyzeClusters (mkRat 4 5) [255,0,0,255, 0,0,0,255] 2 1 4).clusters.countP
        fun cl => decide (((0, 0) : Coord) ∈ cl.pixels)) = 1) :=
  (claim_C2 (mkRat 4 5) [255,0,0,255, 0,0,0,255] 2 1 4).1 (0, 0)
    (by decide) (by decide)

/-- C3: a cluster is classified as a line shift exactly when it is
nonempty and the fraction of its pixels having at most 2 differing
in-bounds 8-neighbors in the mask (mask adjacency, not cluster
membership) strictly exceeds the configured threshold; an empty pixel
list is never a line shift. -/
theorem claim_C3 (ratio : ℚ) (buffer : List Nat) (width height minClusterSize : Nat) :
    (∀ cl ∈ (analyzeClusters ratio buffer width height minClusterSize).clusters,
      (cl.isLineShift = true ↔
        (0 < cl.size ∧
          ratio < (specLineLikeCount buffer width height cl.pixels : ℚ)
            / (cl.size : ℚ)))) ∧
    (∀ q : ℚ, detectLineShift [] buffer width height q = false) := by
  obtain ⟨hmem, -, -, -, -, -⟩ :=
    analyzeClusters_spec ratio buffer width height minClusterSize
  constructor
  · intro cl hcl
    obtain ⟨hsize, -, hshift, -⟩ := hmem cl hcl
    rw [hshift, detectLineShift_iff, hsize]
  · intro q
    rfl

/-- Closed instance of C3: the isolated red pixel of a 1 by 1 mask forms
a singleton cluster, classified by the threshold test, and the empty
pixel list is not a line shift. -/
theorem claim_C3_witness :
    ((⟨1, [(0, 0)], true, ⟨0, 0, 0, 0, some 1, some 1⟩⟩ : Cluster).isLineShift = true ↔
      (0 < (⟨1, [(0, 0)], true, ⟨0, 0, 0, 0, some 1, some 1⟩⟩ : Cluster).size ∧
        (mkRat 4 5 : ℚ) < (specLineLikeCount [255,0,0,255] 1 1
            (⟨1, [(0, 0)], true, ⟨0, 0, 0, 0, some 1, some 1⟩⟩ : Cluster).pixels : ℚ)
          / ((⟨1, [(0, 0)], true, ⟨0, 0, 0, 0, some 1, some 1⟩⟩ : Cluster).size : ℚ))) ∧
    detectLineShift [] [255,0,0,255] 1 1 (mkRat 4 5) = false :=
  ⟨(claim_C3 (mkRat 4 5) [255,0,0,255] 1 1 4).1
      ⟨1, [(0, 0)], true, ⟨0, 0, 0, 0, some 1, some 1⟩⟩ (by decide),
   (claim_C3 (mkRat 4 5) [255,0,0,255] 1 1 4).2 (mkRat 4 5)⟩

/-- C4: with a positive diff count, the reported significantDiffPixels is
the sum of the sizes of exactly the clusters that are not line shifts and
meet minClusterSize; and under the diff-provider contract (the returned
count equals the number of in-grid marker pixels it wrote) it never
exceeds the reported diffCount. -/
theorem claim_C4 (instOptions : Options) (diffBuffer : List Nat)
    (diffCount width height : Nat) (mergedOptions : Options)
    (hpos : 0 < diffCount)
    (hcount : diffCount = (((Finset.range width) ×ˢ (Finset.range height)).filter
      fun c => isDiffPixel diffBuffer (posOf width c) = true).card) :
    (compareFromDiff instOptions diffBuffer diffCount width height
        mergedOptions).details.significantDiffPixels
      = (((analyzeClusters instOptions.lineShiftThreshold diffBuffer width height
            mergedOptions.minClusterSize).clusters.filter fun cl =>
              !cl.isLineShift && decide (mergedOptions.minClusterSize ≤ cl.size)).map
          Cluster.size).sum ∧
    (compareFromDiff instOptions diffBuffer diffCount width height
        mergedOptions).details.significantDiffPixels
      ≤ (compareFromDiff instOptions diffBuffer diffCount width height
          mergedOptions).diffCount := by
  have hne : ¬(diffCount = 0) := by omega
  obtain ⟨hmem, hpw, -, -, hsig, -⟩ :=
    analyzeClusters_spec instOptions.lineShiftThreshold diffBuffer width height
      mergedOptions.minClusterSize
  have hdet : (compareFromDiff instOptions diffBuffer diffCount width height
      mergedOptions).details.significantDiffPixels
      = (analyzeClusters instOptions.lineShiftThreshold diffBuffer width height
          mergedOptions.minClusterSize).significantPixels := by
    simp only [compareFromDiff, if_neg hne]
  have hdc : (compareFromDiff instOptions diffBuffer diffCount width height
      mergedOptions).diffCount = diffCount := by
    simp only [compareFromDiff, if_neg hne]
  constructor
  · rw [hdet, hsig]
    rfl
  · rw [hdet, hdc, hsig]
    set A := analyzeClusters instOptions.lineShiftThreshold diffBuffer width height
      mergedOptions.minClusterSize with hA
    have hsub : List.Sublist (A.clusters.filter
        (isSignificantCluster mergedOptions.minClusterSize)) A.clusters :=
      List.filter_sublist _
    have hsz : ((A.clusters.filter
          (isSignificantCluster mergedOptions.minClusterSize)).map Cluster.size).sum
        = ((A.clusters.filter
          (isSignificantCluster mergedOptions.minClusterSize)).map
            fun cl => cl.pixels.length).sum := by
      apply congrArg
      apply List.map_congr_left
      intro cl hcl
      exact (hmem cl (hsub.mem hcl)).1
    rw [hsz]
    have hle : ((A.clusters.filter
          (isSignificantCluster mergedOptions.minClusterSize)).map
            fun cl => cl.pixels.length).sum
        ≤ (A.clusters.map fun cl => cl.pixels.length).sum :=
      (hsub.map _).sum_le_sum (by intro x _; exact Nat.zero_le x)
    refine le_trans hle ?_
    rw [← card_clustersUnion (fun cl hcl => (hmem cl hcl).2.1) hpw,
      clustersUnion_eq_diffGridPos, card_diffGridPos, hcount]

/-- Closed instance of C4 on a 1 by 1 mask with one red pixel. -/
theorem claim_C4_witness :
    (compareFromDiff defaultOptions [255,0,0,255] 1 1 1
        defaultOptions).details.significantDiffPixels
      = (((analyzeClusters defaultOptions.lineShiftThreshold [255,0,0,255] 1 1
            defaultOptions.minClusterSize).clusters.filter fun cl =>
              !cl.isLineShift && decide (defaultOptions.minClusterSize ≤ cl.size)).map
          Cluster.size).sum ∧
    (compareFromDiff defaultOptions [255,0,0,255] 1 1 1
        defaultOptions).details.significantDiffPixels
      ≤ (compareFromDiff defaultOptions [255,0,0,255] 1 1 1
          defaultOptions).diffCount :=
  claim_C4 defaultOptions [255,0,0,255] 1 1 1 defaultOptions (by decide) (by decide)

/-- C9: for a fixed mask, raising minClusterSize can only shrink the
significant cluster count and the significant pixel sum. -/
theorem claim_C9 (ratio : ℚ) (buffer : List Nat) (width height : Nat)
    (m m2 : Nat) (h : m ≤ m2) :
    (analyzeClusters ratio buffer width height m2).significantClusters
        ≤ (analyzeClusters ratio buffer width height m).significantClusters ∧
    (analyzeClusters ratio buffer width height m2).significantPixels
        ≤ (analyzeClusters ratio buffer width height m).significantPixels := by
  obtain ⟨-, -, -, hc1, hp1, -⟩ := analyzeClusters_spec ratio buffer width height m
  obtain ⟨-, -, -, hc2, hp2, -⟩ := analyzeClusters_spec ratio buffer width height m2
  have hclusters : (analyzeClusters ratio buffer width height m2).clusters
      = (analyzeClusters ratio buffer width height m).clusters := rfl
  have hmono : ∀ cl : Cluster, isSignificantCluster m2 cl = true →
      isSignificantCluster m cl = true := by
    intro cl hcl
    simp only [isSignificantCluster, Bool.and_eq_true, decide_eq_true_iff] at hcl ⊢
    exact ⟨hcl.1, le_trans h hcl.2⟩
  have hsub : List.Sublist
      ((analyzeClusters ratio buffer width height m).clusters.filter
        (isSignificantCluster m2))
      ((analyzeClusters ratio buffer width height m).clusters.filter
        (isSignificantCluster m)) :=
    List.monotone_filter_right _ hmono
  constructor
  · rw [hc1, hc2, hclusters]
    exact hsub.length_le
  · rw [hp1, hp2, hclusters]
    exact (hsub.map Cluster.size).sum_le_sum (by intro x _; exact Nat.zero_le x)

/-- Closed instance of C9 on a concrete mask and thresholds 1 and 2. -/
theorem claim_C9_witness :
    (analyzeClusters (mkRat 4 5) [255,0,0,255, 0,0,0,255] 2 1 2).significantClusters
        ≤ (analyzeClusters (mkRat 4 5) [255,0,0,255, 0,0,0,255] 2 1 1).significantClusters ∧
    (analyzeClusters (mkRat 4 5) [255,0,0,255, 0,0,0,255] 2 1 2).significantPixels
        ≤ (analyzeClusters (mkRat 4 5) [255,0,0,255, 0,0,0,255] 2 1 1).significantPixels :=
  claim_C9 (mkRat 4 5) [255,0,0,255, 0,0,0,255] 2 1 1 2 (by decide)

/-- C10: the diff test reads exactly the three color bytes of the 4-byte
slot: a pixel differs precisely when they read 255, 0, 0; the result is
unchanged by any change confined to the fourth (alpha) byte or beyond;
a slot whose second byte is 255 (such as the anti-aliasing yellow marker
255,255,0) never differs; and every pixel of every cluster passes the
diff test, so non-red markers never enter a cluster. -/
theorem claim_C10 :
    (∀ (buffer : List Nat) (pos : Nat),
      isDiffPixel buffer pos = true ↔
        (buffer.getD pos 0 = 255 ∧ buffer.getD (pos + 1) 0 = 0 ∧
          buffer.getD (pos + 2) 0 = 0)) ∧
    (∀ (b1 b2 : List Nat) (pos : Nat),
      b1.getD pos 0 = b2.getD pos 0 →
      b1.getD (pos + 1) 0 = b2.getD (pos + 1) 0 →
      b1.getD (pos + 2) 0 = b2.getD (pos + 2) 0 →
      isDiffPixel b1 pos = isDiffPixel b2 pos) ∧
    (∀ (buffer : List Nat) (pos : Nat), buffer.getD (pos + 1) 0 = 255 →
      isDiffPixel buffer pos = false) ∧
    (∀ (ratio : ℚ) (buffer : List Nat) (width height minClusterSize : Nat),
      ∀ cl ∈ (analyzeClusters ratio buffer width height minClusterSize).clusters,
      ∀ p ∈ cl.pixels, isDiffPixel buffer (posOf width p) = true) := by
  refine ⟨?_, ?_, ?_, ?_⟩
  · intro buffer pos
    simp [isDiffPixel, and_assoc]
  · intro b1 b2 pos h0 h1 h2
    simp only [isDiffPixel, h0, h1, h2]
  · intro buffer pos h1
    rw [List.getD_eq_getElem?_getD] at h1
    simp [isDiffPixel, List.getD_eq_getElem?_getD, h1]
  · intro ratio buffer width height minClusterSize cl hcl p hp
    obtain ⟨hmem, -, -, -, -, -⟩ :=
      analyzeClusters_spec ratio buffer width height minClusterSize
    exact ((hmem cl hcl).2.2.2 p hp).1

/-- Closed instance of C10: a non-opaque red slot still differs, the
alpha byte does not matter, yellow does not differ, and the pixel of the
singleton cluster of a 1 by 1 red mask differs. -/
theorem claim_C10_witness :
    (isDiffPixel [255,0,0,120] 0 = true ↔
      (([255,0,0,120] : List Nat).getD 0 0 = 255 ∧
        ([255,0,0,120] : List Nat).getD 1 0 = 0 ∧
        ([255,0,0,120] : List Nat).getD 2 0 = 0)) ∧
    isDiffPixel [255,0,0,120] 0 = isDiffPixel [255,0,0,255] 0 ∧
    isDiffPixel [255,255,0,255] 0 = false ∧
    isDiffPixel [255,0,0,255] (posOf 1 ((0, 0) : Coord)) = true :=
  ⟨claim_C10.1 [255,0,0,120] 0,
   claim_C10.2.1 [255,0,0,120] [255,0,0,255] 0 (by decide) (by decide) (by decide),
   claim_C10.2.2.1 [255,255,0,255] 0 (by decide),
   claim_C10.2.2.2 (mkRat 4 5) [255,0,0,255] 1 1 4
     ⟨1, [(0, 0)], true, ⟨0, 0, 0, 0, some 1, some 1⟩⟩ (by decide) (0, 0) (by decide)⟩

/-- C5: the scale is computed from the expected dimensions as the minimum
fit into maxSide, doubled exactly when width and height differ; both
processed buffers get the dimensions of the resized expected image, hence
are always equal and independent of the candidate dimensions; and the
100 by 200 baseline with maxSide 800 yields scale 8 and canonical size
800 by 1600. -/
theorem claim_C5 (actualW actualH expectedW expectedH : Nat) (maxSide : ℚ)
    (_hw : 0 < expectedW) (hh : 0 < expectedH) :
    (calculateScale expectedW expectedH maxSide
        = if expectedW ≠ expectedH then
            2 * min (maxSide / (expectedW : ℚ)) (maxSide / (expectedH : ℚ))
          else
            min (maxSide / (expectedW : ℚ)) (maxSide / (expectedH : ℚ))) ∧
    ((processImagesDims actualW actualH expectedW expectedH maxSide).1
        = (processImagesDims actualW actualH expectedW expectedH maxSide).2) ∧
    (∀ aw ah : Nat, processImagesDims aw ah expectedW expectedH maxSide
        = processImagesDims actualW actualH expectedW expectedH maxSide) ∧
    calculateScale 100 200 800 = 8 ∧
    processImagesDims actualW actualH 100 200 800 = ((800, 1600), (800, 1600)) := by
  have hcast : ((expectedH : ℚ)) ≠ 0 := Nat.cast_ne_zero.mpr (by omega)
  refine ⟨?_, rfl, fun aw ah => rfl, ?_, ?_⟩
  · by_cases hwh : expectedW = expectedH
    · subst hwh
      have hr : ((expectedW : ℚ)) / ((expectedW : ℚ)) = 1 := div_self hcast
      simp [calculateScale, hr]
    · have hr : ((expectedW : ℚ)) / ((expectedH : ℚ)) ≠ 1 := by
        intro hcontra
        rw [div_eq_one_iff_eq hcast] at hcontra
        exact hwh (Nat.cast_injective hcontra)
      simp only [calculateScale, if_pos hr, if_pos hwh]
      ring
  · norm_num [calculateScale]
  · have hsc : calculateScale 100 200 800 = 8 := by norm_num [calculateScale]
    simp only [processImagesDims, resizeDims, hsc]
    norm_num
    exact ⟨rfl, rfl⟩

/-- Closed instance of C5 at the 100 by 200 baseline. -/
theorem claim_C5_witness :
    (calculateScale 100 200 800
        = if (100 : Nat) ≠ 200 then
            2 * min ((800 : ℚ) / ((100 : Nat) : ℚ)) ((800 : ℚ) / ((200 : Nat) : ℚ))
          else
            min ((800 : ℚ) / ((100 : Nat) : ℚ)) ((800 : ℚ) / ((200 : Nat) : ℚ))) ∧
    ((processImagesDims 37 53 100 200 800).1 = (processImagesDims 37 53 100 200 800).2) ∧
    (∀ aw ah : Nat, processImagesDims aw ah 100 200 800
        = processImagesDims 37 53 100 200 800) ∧
    calculateScale 100 200 800 = 8 ∧
    processImagesDims 37 53 100 200 800 = ((800, 1600), (800, 1600)) :=
  claim_C5 37 53 100 200 800 (by decide) (by decide)

/-- C6, amended: a missing actual or expected image makes the engine call
fail before any processing (the result does not depend on the external
pipeline at all) with a ValidationError raised inside the comparator, but
the facade catch re-wraps it, so the caller receives a ComparisonError
whose cause is the ValidationError, not a bare ValidationError. -/
theorem claim_C6 {α : Type} (ext : α → α → Options → Except String DiffOutcome)
    (instOptions : OptionOverrides) (actual expected : Option α)
    (options : OptionOverrides) (h : actual = none ∨ expected = none) :
    engineCompare ext instOptions actual expected options
      = .error (.comparisonError
          "Comparison failed: Both actual and expected images are required"
          (.validationError "Both actual and expected images are required")) := by
  rcases h with rfl | rfl
  · cases expected <;> rfl
  · cases actual <;> rfl

/-- True exactly when a result is an error of the ValidationError shape. -/
def resultErrorIsValidation {β : Type} : Except JsError β → Bool
  | .error (.validationError _) => true
  | _ => false

/-- Closed instance of C6, also exhibiting that the surfaced error is not
a ValidationError, against the literal claim wording. -/
theorem claim_C6_counterexample :
    engineCompare (α := Nat) (fun _ _ _ => .ok ⟨[], 0, 0, 0⟩) {} none (some 0) {}
      = .error (.comparisonError
          "Comparison failed: Both actual and expected images are required"
          (.validationError "Both actual and expected images are required")) ∧
    resultErrorIsValidation
      (engineCompare (α := Nat) (fun _ _ _ => .ok ⟨[], 0, 0, 0⟩) {} none (some 0) {})
      = false := by
  constructor
  · rfl
  · rfl

/-- Closed instance of the amended C6 with a nontrivial external pipeline. -/
theorem claim_C6_witness :
    engineCompare (α := Nat) (fun _ _ _ => .ok ⟨[255,0,0,255], 1, 1, 1⟩)
        {} (some 3) none {}
      = .error (.comparisonError
          "Comparison failed: Both actual and expected images are required"
          (.validationError "Both actual and expected images are required")) :=
  claim_C6 (fun _ _ _ => .ok ⟨[255,0,0,255], 1, 1, 1⟩) {} (some 3) none {}
    (Or.inr rfl)

/-- C7: batch comparison returns one entry per pair, in order, each
carrying the pair name; a pair whose comparison throws yields the entry
with ok false and the error message, the others carry the fields of their
own comparison result; each entry is determined by its own pair alone. -/
theorem claim_C7 {α : Type} (ext : α → α → Options → Except String DiffOutcome)
    (instOptions : OptionOverrides) (imagePairs : List (NamedPair α))
    (options : OptionOverrides) :
    (batchCompare ext instOptions imagePairs options).length = imagePairs.length ∧
    (∀ (i : Nat) (pair : NamedPair α), imagePairs[i]? = some pair →
      (((batchCompare ext instOptions imagePairs options)[i]?).map BatchEntry.name
          = some pair.name) ∧
      (∀ r : ComparisonResult,
        comparatorCompare ext (applyOverrides defaultOptions instOptions)
          pair.actual pair.expected
          (applyOverrides (applyOverrides defaultOptions instOptions)
            options).toOverrides = .ok r →
        (batchCompare ext instOptions imagePairs options)[i]?
          = some ⟨pair.name, r.ok, some r.diffCount, some r.diffImageData,
              some r.details, none⟩) ∧
      (∀ e : JsError,
        comparatorCompare ext (applyOverrides defaultOptions instOptions)
          pair.actual pair.expected
          (applyOverrides (applyOverrides defaultOptions instOptions)
            options).toOverrides = .error e →
        (batchCompare ext instOptions imagePairs options)[i]?
          = some ⟨pair.name, false, none, none, none, some e.message⟩)) := by
  constructor
  · exact List.length_map _ _
  · intro i pair hpair
    have hbatch : (batchCompare ext instOptions imagePairs options)[i]?
        = some (match comparatorCompare ext (applyOverrides defaultOptions instOptions)
            pair.actual pair.expected
            (applyOverrides (applyOverrides defaultOptions instOptions)
              options).toOverrides with
          | .ok result => (⟨pair.name, result.ok, some result.diffCount,
              some result.diffImageData, some result.details, none⟩ : BatchEntry)
          | .error e => ⟨pair.name, false, none, none, none, some e.message⟩) := by
      rw [show batchCompare ext instOptions imagePairs options
        = imagePairs.map (fun pair =>
            match comparatorCompare ext (applyOverrides defaultOptions instOptions)
              pair.actual pair.expected
              (applyOverrides (applyOverrides defaultOptions instOptions)
                options).toOverrides with
            | .ok result => (⟨pair.name, result.ok, some result.diffCount,
                some result.diffImageData, some result.details, none⟩ : BatchEntry)
            | .error e => ⟨pair.name, false, none, none, none, some e.message⟩)
        from rfl, List.getElem?_map, hpair]
      rfl
    refine ⟨?_, ?_, ?_⟩
    · rw [hbatch]
      cases hcmp : comparatorCompare ext (applyOverrides defaultOptions instOptions)
          pair.actual pair.expected
          (applyOverrides (applyOverrides defaultOptions instOptions)
            options).toOverrides <;> simp [hcmp]
    · intro r hr
      rw [hbatch, hr]
    · intro e he
      rw [hbatch, he]

/-- Closed instance of C7: three pairs, the second fails with the
unsupported-input error, the batch still has three entries and the failing
entry degrades to name, ok false and the message. -/
theorem claim_C7_witness :
    (batchCompare (α := Nat)
        (fun a _ _ => if a = 7 then .error "Unsupported image input type"
          else .ok ⟨[255,0,0,255], 1, 1, 1⟩)
        {} [⟨"p1", some 1, some 1⟩, ⟨"p2", some 7, some 7⟩, ⟨"p3", some 1, some 1⟩]
        {}).length = 3 ∧
    (batchCompare (α := Nat)
        (fun a _ _ => if a = 7 then .error "Unsupported image input type"
          else .ok ⟨[255,0,0,255], 1, 1, 1⟩)
        {} [⟨"p1", some 1, some 1⟩, ⟨"p2", some 7, some 7⟩, ⟨"p3", some 1, some 1⟩]
        {})[1]?
      = some ⟨"p2", false, none, none, none, some "Unsupported image input type"⟩ := by
  refine ⟨(claim_C7 _ {} _ {}).1, ?_⟩
  refine ((claim_C7 _ {} _ {}).2 1 ⟨"p2", some 7, some 7⟩ (by rfl)).2.2
    (.error "Unsupported image input type") ?_
  rfl

/-- Verdict of a completed engine comparison. -/
def resultOk {β : Type} : Except β ComparisonResult → Option Bool
  | .ok r => some r.ok
  | .error _ => none

/-- Reported significant pixel count of a completed engine comparison. -/
def resultSigPixels {β : Type} : Except β ComparisonResult → Option Nat
  | .ok r => some r.details.significantDiffPixels
  | .error _ => none

/-- C8, amended: configuration is resolved key by key as per-call override
over instance option over built-in default, and that cascaded record is
what the external pipeline and the significance evaluation see — except
the line-shift ratio: the Cluster Analyzer was constructed with the
instance-level record, so classification always uses the instance-over-
default lineShiftThreshold and a per-call override of that key has no
effect on the comparison. -/
theorem claim_C8 :
    (∀ (instOptions options : OptionOverrides),
      applyOverrides (applyOverrides defaultOptions instOptions) options
        = ⟨options.threshold.getD (instOptions.threshold.getD defaultOptions.threshold),
           options.includeAA.getD (instOptions.includeAA.getD defaultOptions.includeAA),
           options.alpha.getD (instOptions.alpha.getD defaultOptions.alpha),
           options.maxSide.getD (instOptions.maxSide.getD defaultOptions.maxSide),
           options.backgroundColor.getD
             (instOptions.backgroundColor.getD defaultOptions.backgroundColor),
           options.minClusterSize.getD
             (instOptions.minClusterSize.getD defaultOptions.minClusterSize),
           options.maxTotalDiffPixels.getD
             (instOptions.maxTotalDiffPixels.getD defaultOptions.maxTotalDiffPixels),
           options.maxSignificantClusters.getD
             (instOptions.maxSignificantClusters.getD defaultOptions.maxSignificantClusters),
           options.lineShiftThreshold.getD
             (instOptions.lineShiftThreshold.getD defaultOptions.lineShiftThreshold)⟩) ∧
    (∀ (α : Type) (ext : α → α → Options → Except String DiffOutcome)
        (instOptions options : OptionOverrides) (a e : α) (d : DiffOutcome),
      ext a e (applyOverrides (applyOverrides defaultOptions instOptions) options)
          = .ok d →
      engineCompare ext instOptions (some a) (some e) options
        = .ok (compareFromDiff (applyOverrides defaultOptions instOptions)
            d.diffBuffer d.diffCount d.width d.height
            (applyOverrides (applyOverrides defaultOptions instOptions) options))) ∧
    (∀ (instOptions : Options) (diffBuffer : List Nat)
        (diffCount width height : Nat) (mergedOptions : Options) (q : ℚ),
      compareFromDiff instOptions diffBuffer diffCount width height
          { mergedOptions with lineShiftThreshold := q }
        = compareFromDiff instOptions diffBuffer diffCount width height
            mergedOptions) := by
  refine ⟨?_, ?_, ?_⟩
  · intro instOptions options
    rfl
  · intro α ext instOptions options a e d hext
    simp only [engineCompare, comparatorCompare]
    rw [show applyOverrides (applyOverrides defaultOptions instOptions)
        ((applyOverrides (applyOverrides defaultOptions instOptions)
          options).toOverrides)
      = applyOverrides (applyOverrides defaultOptions instOptions) options from rfl]
    rw [hext]
  · intro instOptions diffBuffer diffCount width height mergedOptions q
    rfl

/-- Closed instance of the amended C8 through a full engine call. -/
theorem claim_C8_witness :
    engineCompare (α := Nat) (fun _ _ _ => .ok ⟨[255,0,0,255], 1, 1, 1⟩)
        { minClusterSize := some 1 } (some 0) (some 0)
        { maxTotalDiffPixels := some 0 }
      = .ok (compareFromDiff
          (applyOverrides defaultOptions { minClusterSize := some 1 })
          [255,0,0,255] 1 1 1
          (applyOverrides (applyOverrides defaultOptions { minClusterSize := some 1 })
            { maxTotalDiffPixels := some 0 })) :=
  claim_C8.2.1 Nat (fun _ _ _ => .ok ⟨[255,0,0,255], 1, 1, 1⟩)
    { minClusterSize := some 1 } { maxTotalDiffPixels := some 0 } 0 0
    ⟨[255,0,0,255], 1, 1, 1⟩ rfl

/-- Counterexample to C8 as stated: a per-call override of the line-shift
ratio does not change the comparison. The mask is a single red pixel; with
the ratio in effect being the default 4/5 the singleton cluster is a line
shift, so the comparison reports 0 significant pixels and passes, even
though the per-call override 2 would make it not a line shift; supplying
the same ratio at instance level instead does take effect and the same
comparison reports 1 significant pixel and fails. -/
theorem claim_C8_counterexample :
    resultOk (engineCompare (α := Nat) (fun _ _ _ => .ok ⟨[255,0,0,255], 1, 1, 1⟩)
        {} (some 0) (some 0)
        { minClusterSize := some 1, maxTotalDiffPixels := some 0,
          lineShiftThreshold := some (mkRat 2 1) }) = some true ∧
    resultSigPixels (engineCompare (α := Nat) (fun _ _ _ => .ok ⟨[255,0,0,255], 1, 1, 1⟩)
        {} (some 0) (some 0)
        { minClusterSize := some 1, maxTotalDiffPixels := some 0,
          lineShiftThreshold := some (mkRat 2 1) }) = some 0 ∧
    resultOk (engineCompare (α := Nat) (fun _ _ _ => .ok ⟨[255,0,0,255], 1, 1, 1⟩)
        { lineShiftThreshold := some (mkRat 2 1) } (some 0) (some 0)
        { minClusterSize := some 1, maxTotalDiffPixels := some 0 }) = some false ∧
    resultSigPixels (engineCompare (α := Nat) (fun _ _ _ => .ok ⟨[255,0,0,255], 1, 1, 1⟩)
        { lineShiftThreshold := some (mkRat 2 1) } (some 0) (some 0)
        { minClusterSize := some 1, maxTotalDiffPixels := some 0 }) = some 1 := by
  refine ⟨?_, ?_, ?_, ?_⟩ <;> decide
